import Mathlib

/-!
Verification of the `animatediff-cli-prompt-travel` command-line driver
(`src/animatediff/cli.py`).  The definitions below are a shallow embedding of
the pure control flow of the `generate` and `tile_upscale` commands: Python
integers become `Int`/`Nat`, Python dicts with insertion order become
association lists with last-write-wins insertion, `torch.seed()` becomes an
abstract stream `rng : Nat → Nat` of non-negative draws, and the outside
collaborators (`run_inference`, pipeline construction, file I/O) are recorded
as data rather than executed.
-/

/-! ## C1: motion-module v1 context clamp (cli.py lines 322-324)

`if (not is_v2) and (context > 24): logger.warning(...); context = 24`
The function returns the new context value and whether the warning fired.
The step is total: no exception can be raised here. -/

def clampContextForV1 (is_v2 : Bool) (context : Int) : Int × Bool :=
  if ¬ is_v2 ∧ context > 24 then (24, true) else (context, false)

/-! ## C7: pipeline reuse cache (cli.py lines 84-86 and 461-475)

Global state `g_pipeline : Optional[AnimationPipeline]`,
`last_model_path : Optional[Path]`.  The step
`if g_pipeline is None or last_model_path != model_config.path.resolve():`
creates a fresh pipeline and updates `last_model_path`; otherwise the cached
pipeline is kept and only the text embeddings are reloaded.  Pipelines are
abstracted to `Nat` identities and resolved paths to `String`. -/

structure PipelineCacheState where
  g_pipeline : Option Nat
  last_model_path : Option String
deriving DecidableEq

inductive PipelineAction where
  | created
  | reused_reload_embeddings
deriving DecidableEq

def pipelineReuseStep (st : PipelineCacheState) (resolved_path : String) (fresh : Nat) :
    PipelineCacheState × PipelineAction :=
  if st.g_pipeline.isNone ∨ st.last_model_path ≠ some resolved_path then
    (⟨some fresh, some resolved_path⟩, .created)
  else
    (st, .reused_reload_embeddings)

/-! ## C10: tile_upscale width/height check (cli.py lines 690-691)

`if width < 0 and height < 0: raise ValueError(...)` is the first statement of
the command body after silencing diffusers logging; the configuration file is
only read afterwards (line 698 onwards).  The model takes the would-be
configuration as an argument and shows the error is produced without
consulting it. -/

def tileUpscaleSizeCheck (width height : Int) : Except (Int × Int) Unit :=
  if width < 0 ∧ height < 0 then .error (width, height) else .ok ()

def tileUpscalePrologue (width height : Int) (config : List (String × String)) :
    Except (Int × Int) (List (String × String)) :=
  match tileUpscaleSizeCheck width height with
  | .error e => .error e
  | .ok _ => .ok config

/-! ## Association-list model of Python dicts

`model_config.prompt_map` and `lora_map` are Python dicts that preserve
insertion order; assignment `d[k] = v` replaces the value in place when the
key exists and appends otherwise.  `lookupAssoc` is dict lookup,
`insertAssoc` is dict assignment, `buildAssocLast` folds a pair list into a
dict (so a repeated key keeps the value of its last occurrence). -/

def lookupAssoc {K V : Type} [DecidableEq K] : List (K × V) → K → Option V
  | [], _ => none
  | (k', v) :: rest, k => if k' = k then some v else lookupAssoc rest k

def insertAssoc {K V : Type} [DecidableEq K] (m : List (K × V)) (k : K) (v : V) :
    List (K × V) :=
  if m.any (fun p => decide (p.1 = k)) then
    m.map (fun p => if p.1 = k then (k, v) else p)
  else
    m ++ [(k, v)]

def buildAssocLast {K V : Type} [DecidableEq K] (l : List (K × V)) : List (K × V) :=
  l.foldl (fun m t => insertAssoc m t.1 t.2) []

/-! ## Decimal strings: model of Python str() and int()

The generate command converts between frame indices and string keys with
`f"{idx}"` (cli.py line 335) and `int(k)` (line 537).  `natStr` produces the
decimal representation of a natural number; `parsePyInt` parses an optional
sign followed by decimal digits, which is Python `int()` on the strings the
command actually handles. -/

def digitChar (d : Nat) : Char := Char.ofNat (48 + d)

def natToChars : Nat → Nat → List Char
  | 0, _ => []
  | fuel + 1, n =>
    if n < 10 then [digitChar n] else natToChars fuel (n / 10) ++ [digitChar (n % 10)]

def natStr (n : Nat) : String := ⟨natToChars (n + 1) n⟩

def digitVal (c : Char) : Option Nat :=
  if 48 ≤ c.toNat ∧ c.toNat ≤ 57 then some (c.toNat - 48) else none

def parseNatAux : Nat → List Char → Option Nat
  | acc, [] => some acc
  | acc, c :: cs =>
    match digitVal c with
    | some d => parseNatAux (acc * 10 + d) cs
    | none => none

def parseNatChars (l : List Char) : Option Nat :=
  if l.isEmpty then none else parseNatAux 0 l

def parsePyInt (s : String) : Option Int :=
  match s.data with
  | '-' :: rest => (parseNatChars rest).map (fun n => -(n : Int))
  | '+' :: rest => (parseNatChars rest).map (fun n => (n : Int))
  | l => (parseNatChars l).map (fun n => (n : Int))

/-! ## C9: legacy list-style prompt merge (cli.py lines 334-335)

`for idx, prompt in enumerate(model_config.prompt):
     model_config.prompt_map[f"{idx}"] = prompt` -/

def mergeLegacyAux : List (String × String) → Nat → List String → List (String × String)
  | pm, _, [] => pm
  | pm, idx, p :: rest => mergeLegacyAux (insertAssoc pm (natStr idx) p) (idx + 1) rest

def mergeLegacyPrompts (prompts : List String) (prompt_map : List (String × String)) :
    List (String × String) :=
  mergeLegacyAux prompt_map 0 prompts

/-! ## C5/C6: per-run prompt map build (cli.py lines 535-544)

For each string key `k` of the configured prompt map with `int(k) < length`,
the loop stores under the integer key `int(k)` the keyframe text with
`head_prompt + ","` prepended when `head_prompt` is truthy and
`"," + tail_prompt` appended when `tail_prompt` is truthy (the empty string
is falsy in Python, standing for an unset decoration).  Keys are compared
only against the upper bound `length`; there is no lower-bound check. -/

def decorate (head tail pr : String) : String :=
  let pr1 := if head ≠ "" then head ++ "," ++ pr else pr
  if tail ≠ "" then pr1 ++ "," ++ tail else pr1

def promptEntry (head tail : String) (len : Int) (kv : String × String) :
    Option (Int × String) :=
  match parsePyInt kv.1 with
  | some i => if i < len then some (i, decorate head tail kv.2) else none
  | none => none

def promptMapEntries (pm : List (String × String)) (head tail : String) (len : Int) :
    List (Int × String) :=
  pm.filterMap (promptEntry head tail len)

def buildPromptMap (pm : List (String × String)) (head tail : String) (len : Int) :
    List (Int × String) :=
  buildAssocLast (promptMapEntries pm head tail len)

/-! ## C8: LoRA tag parsing (cli.py lines 427-436)

`re.findall(r"<lora:([^:]+):([0-9.]+)>", prompt)` collects the (name, weight)
capture pairs and `re.sub(...)` deletes the matched spans, both in the same
single left-to-right non-overlapping scan.  `matchLora` decides whether the
regex matches at the start of a character list: the literal opening `<lora:`,
then one or more non-colon characters (greedy, which for a class excluding
the following delimiter needs no backtracking), a colon, one or more
characters in `[0-9.]`, and a closing `>`.  `loraTagsF` is findall and
`loraStripF` is sub, driven by a fuel that any `fuel ≥ length` satisfies;
both advance by one character on a failed match and jump past a successful
match, exactly like the `re` scanner. -/

def loraTagOpen : List Char := ['<', 'l', 'o', 'r', 'a', ':']

def isWeightChar (c : Char) : Bool := c.isDigit || c == '.'

def matchLora (cs : List Char) : Option (List Char × List Char × List Char) :=
  if cs.take 6 ≠ loraTagOpen then none
  else if ((cs.drop 6).takeWhile (fun c => c != ':')).isEmpty then none
  else
    match (cs.drop 6).dropWhile (fun c => c != ':') with
    | ':' :: rest3 =>
      if (rest3.takeWhile isWeightChar).isEmpty then none
      else
        match rest3.dropWhile isWeightChar with
        | '>' :: rest5 =>
          some ((cs.drop 6).takeWhile (fun c => c != ':'), rest3.takeWhile isWeightChar,
            rest5)
        | _ => none
    | _ => none

def loraTagsF : Nat → List Char → List (List Char × List Char)
  | 0, _ => []
  | _ + 1, [] => []
  | fuel + 1, c :: cs =>
    match matchLora (c :: cs) with
    | some (n, w, rest) => (n, w) :: loraTagsF fuel rest
    | none => loraTagsF fuel cs

def loraStripF : Nat → List Char → List Char
  | 0, cs => cs
  | _ + 1, [] => []
  | fuel + 1, c :: cs =>
    match matchLora (c :: cs) with
    | some (_, _, rest) => loraStripF fuel rest
    | none => c :: loraStripF fuel cs

def loraFindAll (s : String) : List (String × String) :=
  (loraTagsF s.data.length s.data).map (fun nw => (⟨nw.1⟩, ⟨nw.2⟩))

def loraStrip (s : String) : String := ⟨loraStripF s.data.length s.data⟩

def hasLoraTag : List Char → Bool
  | [] => false
  | c :: cs => (matchLora (c :: cs)).isSome || hasLoraTag cs

/-! ## C2/C3/C4: the generate command run (cli.py lines 333-335, 427-436,
489-491 and 508-575)

`RawConfig` holds the configuration fields the control flow reads.
`generateCommand` composes, in source order: the legacy prompt-list merge
(line 334), LoRA tag collection and stripping over the prompt map
(lines 427-436), the sentinel-seed fix `if s == -1: seed[i] = torch.seed()`
(lines 489-491) which runs before `prompt.json` is written (line 505), and
the repeat loop (lines 519-575).  `torch.seed()` returns a non-negative
64-bit integer; it is modelled as a stream `rng : Nat → Nat` indexed by a
draw counter threaded through the run.  Each run of the loop body appends an
`Invocation` record carrying exactly the arguments that reach
`logger.info(f"Generation seed: {seed}")` (line 533) and `run_inference`
(line 546).  Python raises ZeroDivisionError on `idx % 0`; indexing is
modelled with `List.getD`, and every theorem that touches it assumes the
lists are non-empty, where the two agree.  The loop guard
`if model_config.prompt_map:` (line 520) is the emptiness test on the merged,
stripped prompt map. -/

structure RawConfig where
  prompt : List String
  prompt_map : List (String × String)
  n_prompt : List String
  seed : List Int
  head_prompt : String
  tail_prompt : String
deriving DecidableEq

structure Invocation where
  n_prompt : String
  seed : Int
  logged_seed : Int
  idx : Nat
  prompt_map : List (Int × String)
deriving DecidableEq

def invDefault : Invocation :=
  { n_prompt := "", seed := 0, logged_seed := 0, idx := 0, prompt_map := [] }

structure RunResult where
  persisted_seed : List Int
  lora_map : List (String × String)
  invocations : List Invocation
deriving DecidableEq

def fixSeeds (rng : Nat → Nat) : Nat → List Int → List Int × Nat
  | c, [] => ([], c)
  | c, s :: rest =>
    if s = -1 then
      (((rng c : Nat) : Int) :: (fixSeeds rng (c + 1) rest).1, (fixSeeds rng (c + 1) rest).2)
    else
      (s :: (fixSeeds rng c rest).1, (fixSeeds rng c rest).2)

def loopSeed (rng : Nat → Nat) (seeds : List Int) (c gen_num : Nat) : Int :=
  if seeds.getD (gen_num % seeds.length) 0 = -1 then ((rng c : Nat) : Int)
  else seeds.getD (gen_num % seeds.length) 0

def loopSeedCounter (rng : Nat → Nat) (seeds : List Int) (c gen_num : Nat) : Nat :=
  if seeds.getD (gen_num % seeds.length) 0 = -1 then c + 1 else c

def genLoop (rng : Nat → Nat) (seeds : List Int) (nprompts : List String)
    (pm : List (String × String)) (head tail : String) (length : Int) :
    Nat → Nat → Nat → List Invocation
  | 0, _, _ => []
  | repeats + 1, c, gen_num =>
    if pm.isEmpty then
      genLoop rng seeds nprompts pm head tail length repeats c gen_num
    else
      { n_prompt := nprompts.getD (gen_num % nprompts.length) "",
        seed := loopSeed rng seeds c gen_num,
        logged_seed := loopSeed rng seeds c gen_num,
        idx := gen_num,
        prompt_map := buildPromptMap pm head tail length } ::
      genLoop rng seeds nprompts pm head tail length repeats
        (loopSeedCounter rng seeds c gen_num) (gen_num + 1)

def generateCommand (rng : Nat → Nat) (cfg : RawConfig) (length : Int) (repeats : Nat) :
    RunResult :=
  let merged := mergeLegacyPrompts cfg.prompt cfg.prompt_map
  { persisted_seed := (fixSeeds rng 0 cfg.seed).1,
    lora_map := buildAssocLast (merged.map (fun kv => loraFindAll kv.2)).flatten,
    invocations := genLoop rng (fixSeeds rng 0 cfg.seed).1 cfg.n_prompt
      (merged.map (fun kv => (kv.1, loraStrip kv.2)))
      cfg.head_prompt cfg.tail_prompt length repeats (fixSeeds rng 0 cfg.seed).2 0 }

/-! Concrete runs used by the closed theorems below. -/

def rngZero : Nat → Nat := fun _ => 0

def emptyPromptConfig : RawConfig :=
  { prompt := [], prompt_map := [], n_prompt := ["bad"], seed := [5],
    head_prompt := "", tail_prompt := "" }

def emptyMapRepeatConfig : RawConfig :=
  { prompt := [], prompt_map := [], n_prompt := ["x"], seed := [7],
    head_prompt := "", tail_prompt := "" }

def sentinelSeedConfig : RawConfig :=
  { prompt := [], prompt_map := [("0", "cat")], n_prompt := ["low quality"], seed := [-1],
    head_prompt := "", tail_prompt := "" }

def cyclingConfig : RawConfig :=
  { prompt := [], prompt_map := [("0", "hi")], n_prompt := ["negA", "negB"], seed := [3],
    head_prompt := "", tail_prompt := "" }

theorem lookupAssoc_eq_none_of_keys {K V : Type} [DecidableEq K] (m : List (K × V)) (k : K)
    (h : ∀ p ∈ m, p.1 ≠ k) : lookupAssoc m k = none := by
  induction m with
  | nil => rfl
  | cons hd tl ih =>
    obtain ⟨k', v'⟩ := hd
    have hk' : k' ≠ k := h (k', v') (List.mem_cons_self _ _)
    simp [lookupAssoc, hk', ih (fun p hp => h p (List.mem_cons_of_mem _ hp))]

theorem lookupAssoc_append_some {K V : Type} [DecidableEq K] (m l : List (K × V)) (k : K)
    (v : V) (h : lookupAssoc m k = some v) : lookupAssoc (m ++ l) k = some v := by
  induction m with
  | nil => cases h
  | cons hd tl ih =>
    obtain ⟨k', v'⟩ := hd
    by_cases hkk : k' = k
    · simp only [lookupAssoc, if_pos hkk] at h
      simp only [List.cons_append, lookupAssoc, if_pos hkk]
      exact h
    · simp only [lookupAssoc, if_neg hkk] at h
      simp only [List.cons_append, lookupAssoc, if_neg hkk]
      exact ih h

theorem lookupAssoc_append_none {K V : Type} [DecidableEq K] (m l : List (K × V)) (k : K)
    (h : lookupAssoc m k = none) : lookupAssoc (m ++ l) k = lookupAssoc l k := by
  induction m with
  | nil => rfl
  | cons hd tl ih =>
    obtain ⟨k', v'⟩ := hd
    by_cases hkk : k' = k
    · simp only [lookupAssoc, if_pos hkk] at h
      cases h
    · simp only [lookupAssoc, if_neg hkk] at h
      simp only [List.cons_append, lookupAssoc, if_neg hkk]
      exact ih h

theorem lookupAssoc_mapReplace_ne {K V : Type} [DecidableEq K] (m : List (K × V)) (a k : K)
    (b : V) (hk : k ≠ a) :
    lookupAssoc (m.map (fun p => if p.1 = a then (a, b) else p)) k = lookupAssoc m k := by
  induction m with
  | nil => rfl
  | cons hd tl ih =>
    obtain ⟨k', v'⟩ := hd
    dsimp only [List.map_cons]
    by_cases h : k' = a
    · rw [if_pos h]
      simp only [lookupAssoc]
      rw [if_neg (fun e : a = k => hk e.symm), if_neg (fun e : k' = k => hk (h ▸ e.symm))]
      exact ih
    · rw [if_neg h]
      simp only [lookupAssoc]
      by_cases hkk : k' = k
      · rw [if_pos hkk, if_pos hkk]
      · rw [if_neg hkk, if_neg hkk]
        exact ih

theorem lookupAssoc_mapReplace_self {K V : Type} [DecidableEq K] (m : List (K × V)) (a : K)
    (b : V) (hmem : ∃ p ∈ m, p.1 = a) :
    lookupAssoc (m.map (fun p => if p.1 = a then (a, b) else p)) a = some b := by
  induction m with
  | nil =>
    rcases hmem with ⟨p, hp, _⟩
    cases hp
  | cons hd tl ih =>
    obtain ⟨k', v'⟩ := hd
    dsimp only [List.map_cons]
    by_cases h : k' = a
    · rw [if_pos h]
      simp only [lookupAssoc]
      simp
    · rw [if_neg h]
      simp only [lookupAssoc]
      rw [if_neg h]
      rcases hmem with ⟨p, hp, hpa⟩
      rcases List.mem_cons.mp hp with hph | hp'
      · rw [hph] at hpa
        exact absurd hpa h
      · exact ih ⟨p, hp', hpa⟩

theorem lookupAssoc_insertAssoc {K V : Type} [DecidableEq K] (m : List (K × V)) (a k : K)
    (b : V) :
    lookupAssoc (insertAssoc m a b) k = if a = k then some b else lookupAssoc m k := by
  unfold insertAssoc
  by_cases hany : m.any (fun p => decide (p.1 = a)) = true
  · rw [if_pos hany]
    by_cases hak : a = k
    · subst hak
      rw [if_pos rfl]
      apply lookupAssoc_mapReplace_self
      rcases List.any_eq_true.mp hany with ⟨p, hp, hpa⟩
      exact ⟨p, hp, of_decide_eq_true hpa⟩
    · rw [if_neg hak]
      exact lookupAssoc_mapReplace_ne m a k b (fun e => hak e.symm)
  · rw [if_neg hany]
    have hnok : ∀ p ∈ m, p.1 ≠ a := by
      intro p hp hpa
      exact hany (List.any_eq_true.mpr ⟨p, hp, decide_eq_true hpa⟩)
    by_cases hak : a = k
    · subst hak
      rw [if_pos rfl]
      rw [lookupAssoc_append_none m _ a (lookupAssoc_eq_none_of_keys m a hnok)]
      simp [lookupAssoc]
    · rw [if_neg hak]
      cases hsome : lookupAssoc m k with
      | some v => exact lookupAssoc_append_some _ _ _ _ hsome
      | none =>
        calc lookupAssoc (m ++ [(a, b)]) k = lookupAssoc [(a, b)] k :=
              lookupAssoc_append_none m [(a, b)] k hsome
          _ = none := by simp [lookupAssoc, hak]

theorem lookupAssoc_buildAssocLast {K V : Type} [DecidableEq K] (l : List (K × V)) (k : K) :
    lookupAssoc (buildAssocLast l) k =
      ((l.filter (fun p => decide (p.1 = k))).getLast?).map Prod.snd := by
  induction l using List.reverseRecOn with
  | nil => rfl
  | append_singleton ts t ih =>
    have hfold : buildAssocLast (ts ++ [t]) = insertAssoc (buildAssocLast ts) t.1 t.2 := by
      unfold buildAssocLast
      rw [List.foldl_append]
      rfl
    rw [hfold, lookupAssoc_insertAssoc]
    by_cases htk : t.1 = k
    · rw [if_pos htk, List.filter_append]
      have hsing : List.filter (fun p => decide (p.1 = k)) [t] = [t] := by simp [htk]
      rw [hsing, List.getLast?_concat]
      rfl
    · rw [if_neg htk, ih, List.filter_append]
      have hsing : List.filter (fun p => decide (p.1 = k)) [t] = ([] : List (K × V)) := by
        simp [htk]
      simp [hsing]

theorem keys_insertAssoc {K V : Type} [DecidableEq K] (m : List (K × V)) (a : K) (b : V)
    (p : K × V) (hp : p ∈ insertAssoc m a b) : p.1 ∈ m.map Prod.fst ∨ p.1 = a := by
  unfold insertAssoc at hp
  by_cases hany : m.any (fun q => decide (q.1 = a)) = true
  · rw [if_pos hany] at hp
    rcases List.mem_map.mp hp with ⟨q, hq, hqp⟩
    by_cases hqa : q.1 = a
    · rw [if_pos hqa] at hqp
      right
      rw [← hqp]
    · rw [if_neg hqa] at hqp
      left
      rw [← hqp]
      exact List.mem_map_of_mem Prod.fst hq
  · rw [if_neg hany] at hp
    rcases List.mem_append.mp hp with h | h
    · exact Or.inl (List.mem_map_of_mem Prod.fst h)
    · right
      rw [List.mem_singleton] at h
      rw [h]

theorem keys_foldl_insertAssoc {K V : Type} [DecidableEq K] (l : List (K × V)) :
    ∀ (acc : List (K × V)) (p : K × V),
      p ∈ l.foldl (fun m t => insertAssoc m t.1 t.2) acc →
      p.1 ∈ acc.map Prod.fst ∨ p.1 ∈ l.map Prod.fst := by
  induction l with
  | nil =>
    intro acc p hp
    exact Or.inl (List.mem_map_of_mem Prod.fst hp)
  | cons t ts ih =>
    intro acc p hp
    rcases ih (insertAssoc acc t.1 t.2) p hp with h | h
    · rcases List.mem_map.mp h with ⟨q, hq, hq1⟩
      rcases keys_insertAssoc acc t.1 t.2 q hq with hk | hk
      · exact Or.inl (hq1 ▸ hk)
      · right
        rw [List.map_cons, ← hq1, hk]
        exact List.mem_cons_self _ _
    · right
      rw [List.map_cons]
      exact List.mem_cons_of_mem _ h

theorem keys_buildAssocLast {K V : Type} [DecidableEq K] (l : List (K × V)) (p : K × V)
    (hp : p ∈ buildAssocLast l) : p.1 ∈ l.map Prod.fst := by
  rcases keys_foldl_insertAssoc l [] p hp with h | h
  · simp at h
  · exact h

theorem digitVal_digitChar (d : Nat) (hd : d < 10) : digitVal (digitChar d) = some d := by
  interval_cases d <;> decide

theorem parseNatAux_append (l1 l2 : List Char) : ∀ (acc m : Nat),
    parseNatAux acc l1 = some m → parseNatAux acc (l1 ++ l2) = parseNatAux m l2 := by
  induction l1 with
  | nil =>
    intro acc m h
    simp only [parseNatAux] at h
    cases h
    rfl
  | cons c cs ih =>
    intro acc m h
    simp only [parseNatAux] at h
    simp only [List.cons_append, parseNatAux]
    cases hd : digitVal c with
    | some d =>
      rw [hd] at h
      simp only [hd]
      exact ih _ _ h
    | none =>
      rw [hd] at h
      simp at h

theorem parseNatAux_natToChars : ∀ (fuel n acc : Nat), n < fuel →
    parseNatAux acc (natToChars fuel n) =
      some (acc * 10 ^ (natToChars fuel n).length + n) := by
  intro fuel
  induction fuel with
  | zero =>
    intro n acc h
    omega
  | succ f ih =>
    intro n acc h
    by_cases hn : n < 10
    · simp only [natToChars, if_pos hn]
      simp only [parseNatAux, digitVal_digitChar n hn]
      simp [pow_one]
    · have hdiv : n / 10 < n := Nat.div_lt_self (by omega) (by norm_num)
      have hf : n / 10 < f := by omega
      simp only [natToChars, if_neg hn]
      rw [parseNatAux_append _ _ acc _ (ih (n / 10) acc hf)]
      have hm : n % 10 < 10 := Nat.mod_lt _ (by norm_num)
      simp only [parseNatAux, digitVal_digitChar _ hm]
      rw [List.length_append, List.length_singleton]
      congr 1
      calc (acc * 10 ^ (natToChars f (n / 10)).length + n / 10) * 10 + n % 10
          = acc * (10 ^ (natToChars f (n / 10)).length * 10) + (10 * (n / 10) + n % 10) := by
            ring
        _ = acc * 10 ^ ((natToChars f (n / 10)).length + 1) + n := by
            rw [Nat.div_add_mod, pow_succ]

theorem natToChars_ne_nil (fuel n : Nat) : natToChars (fuel + 1) n ≠ [] := by
  simp only [natToChars]
  by_cases hn : n < 10
  · rw [if_pos hn]
    simp
  · rw [if_neg hn]
    simp

theorem parseNatChars_natStr (n : Nat) : parseNatChars (natStr n).data = some n := by
  show parseNatChars (natToChars (n + 1) n) = some n
  unfold parseNatChars
  rw [if_neg (by simp [List.isEmpty_iff, natToChars_ne_nil n n])]
  rw [parseNatAux_natToChars (n + 1) n 0 (Nat.lt_succ_self n)]
  simp

theorem natStr_injective : ∀ a b : Nat, natStr a = natStr b → a = b := by
  intro a b h
  have h2 : parseNatChars (natStr a).data = parseNatChars (natStr b).data := by rw [h]
  rw [parseNatChars_natStr, parseNatChars_natStr] at h2
  cases h2
  rfl

/-- C1: in the generate command, when the motion module is not a v2 module and
the effective context exceeds 24, the context is clamped to exactly 24 and a
warning is emitted (and the step raises nothing, being a total function); for
a v2 module, or a context of at most 24, the value is left unchanged and no
warning fires. -/
theorem context_clamp_v1_spec (is_v2 : Bool) (context : Int) :
    (is_v2 = false → context > 24 → clampContextForV1 is_v2 context = (24, true)) ∧
    (is_v2 = true ∨ context ≤ 24 → clampContextForV1 is_v2 context = (context, false)) := by
  unfold clampContextForV1
  constructor
  · intro hv hc
    rw [if_pos ⟨by simp [hv], hc⟩]
  · intro h
    have hneg : ¬ (¬ is_v2 = true ∧ context > 24) := by
      rintro ⟨hnv, hgt⟩
      rcases h with hv | hc
      · rw [hv] at hnv; exact hnv rfl
      · omega
    rw [if_neg hneg]

/-- Witness for `context_clamp_v1_spec`: a v1 module with requested context 32
is clamped to 24 with a warning; a v2 module keeps context 32. -/
theorem context_clamp_v1_spec_witness :
    clampContextForV1 false 32 = (24, true) ∧ clampContextForV1 true 32 = (32, false) :=
  ⟨(context_clamp_v1_spec false 32).1 rfl (by norm_num),
   (context_clamp_v1_spec true 32).2 (Or.inl rfl)⟩

/-- C7: the generate command creates a new pipeline exactly when no pipeline is
cached or the cached model path differs from the current resolved model path;
on creation the cache is updated to the fresh pipeline and the resolved path;
when both match, the cached state is kept unchanged and only the text
embeddings are reloaded. -/
theorem pipeline_cache_spec (st : PipelineCacheState) (path : String) (fresh : Nat) :
    ((pipelineReuseStep st path fresh).2 = .created ↔
      (st.g_pipeline = none ∨ st.last_model_path ≠ some path)) ∧
    ((pipelineReuseStep st path fresh).2 = .created →
      (pipelineReuseStep st path fresh).1 = ⟨some fresh, some path⟩) ∧
    ((pipelineReuseStep st path fresh).2 = .reused_reload_embeddings →
      (pipelineReuseStep st path fresh).1 = st ∧ st.last_model_path = some path) := by
  by_cases h : st.g_pipeline.isNone ∨ st.last_model_path ≠ some path
  · have hstep : pipelineReuseStep st path fresh = (⟨some fresh, some path⟩, .created) := by
      unfold pipelineReuseStep
      rw [if_pos h]
    rw [hstep]
    refine ⟨?_, fun _ => rfl, fun hc => by simp at hc⟩
    constructor
    · intro _
      rcases h with h | h
      · exact Or.inl (Option.isNone_iff_eq_none.mp h)
      · exact Or.inr h
    · intro _
      rfl
  · have hstep : pipelineReuseStep st path fresh = (st, .reused_reload_embeddings) := by
      unfold pipelineReuseStep
      rw [if_neg h]
    push_neg at h
    rw [hstep]
    refine ⟨?_, fun hc => by simp at hc, fun _ => ⟨rfl, h.2⟩⟩
    constructor
    · intro hc
      simp at hc
    · intro hor
      exfalso
      rcases hor with hc | hc
      · exact h.1 (by rw [hc]; rfl)
      · exact hc h.2

/-- Witness for `pipeline_cache_spec`: with an empty cache the pipeline is
created, and with a cache matching the resolved path it is reused with the
state kept unchanged. -/
theorem pipeline_cache_spec_witness :
    (pipelineReuseStep ⟨none, none⟩ "model-a" 7).2 = .created ∧
    (pipelineReuseStep ⟨some 7, some "model-a"⟩ "model-a" 9).1 = ⟨some 7, some "model-a"⟩ := by
  have h1 := (pipeline_cache_spec ⟨none, none⟩ "model-a" 7).1.mpr (Or.inl rfl)
  have h3 : (pipelineReuseStep ⟨some 7, some "model-a"⟩ "model-a" 9).2 =
      .reused_reload_embeddings := by decide
  exact ⟨h1, ((pipeline_cache_spec ⟨some 7, some "model-a"⟩ "model-a" 9).2.2 h3).1⟩

/-- C10: the tile_upscale command raises a ValueError exactly when both the
width and the height argument are negative, and it does so before the
configuration is read: the error outcome does not depend on the configuration
argument; when at least one of width and height is non-negative the check
passes and the command proceeds to read the configuration. -/
theorem tile_upscale_size_check_spec (width height : Int) (config : List (String × String)) :
    (width < 0 → height < 0 → tileUpscalePrologue width height config = .error (width, height)) ∧
    (0 ≤ width ∨ 0 ≤ height → tileUpscalePrologue width height config = .ok config) := by
  constructor
  · intro hw hh
    simp [tileUpscalePrologue, tileUpscaleSizeCheck, hw, hh]
  · intro h
    have : ¬ (width < 0 ∧ height < 0) := by omega
    simp [tileUpscalePrologue, tileUpscaleSizeCheck, this]

/-- Witness for `tile_upscale_size_check_spec`: default arguments (-1, -1) are
rejected regardless of the configuration; (512, -1) passes the check. -/
theorem tile_upscale_size_check_spec_witness :
    tileUpscalePrologue (-1) (-1) [("path", "a.json")] = .error (-1, -1) ∧
    tileUpscalePrologue 512 (-1) [("path", "a.json")] = .ok [("path", "a.json")] :=
  ⟨(tile_upscale_size_check_spec (-1) (-1) [("path", "a.json")]).1 (by norm_num) (by norm_num),
   (tile_upscale_size_check_spec 512 (-1) [("path", "a.json")]).2 (by norm_num)⟩

theorem mergeLegacyAux_other_key (l : List String) : ∀ (pm : List (String × String))
    (idx : Nat) (k : String), (∀ j, j < l.length → k ≠ natStr (idx + j)) →
    lookupAssoc (mergeLegacyAux pm idx l) k = lookupAssoc pm k := by
  induction l with
  | nil =>
    intro pm idx k _
    rfl
  | cons p rest ih =>
    intro pm idx k hk
    have hrec : ∀ j, j < rest.length → k ≠ natStr ((idx + 1) + j) := by
      intro j hj
      have := hk (j + 1) (by simpa using Nat.succ_lt_succ hj)
      intro he
      exact this (by rw [he]; congr 1; omega)
    show lookupAssoc (mergeLegacyAux (insertAssoc pm (natStr idx) p) (idx + 1) rest) k =
      lookupAssoc pm k
    rw [ih _ _ _ hrec, lookupAssoc_insertAssoc]
    have h0 : k ≠ natStr idx := by
      have := hk 0 (by simp)
      simpa using this
    rw [if_neg (fun e => h0 e.symm)]

theorem mergeLegacyAux_lookup (l : List String) : ∀ (pm : List (String × String))
    (idx i : Nat) (hi : i < l.length),
    lookupAssoc (mergeLegacyAux pm idx l) (natStr (idx + i)) = some (l.get ⟨i, hi⟩) := by
  induction l with
  | nil =>
    intro pm idx i hi
    simp at hi
  | cons p rest ih =>
    intro pm idx i hi
    cases i with
    | zero =>
      show lookupAssoc (mergeLegacyAux (insertAssoc pm (natStr idx) p) (idx + 1) rest)
        (natStr (idx + 0)) = some p
      have hkeys : ∀ j, j < rest.length → natStr (idx + 0) ≠ natStr ((idx + 1) + j) := by
        intro j _ he
        have := natStr_injective _ _ he
        omega
      rw [mergeLegacyAux_other_key rest _ (idx + 1) _ hkeys, lookupAssoc_insertAssoc]
      rw [if_pos (by rw [Nat.add_zero])]
    | succ i' =>
      have hi' : i' < rest.length := by
        simp only [List.length_cons] at hi
        omega
      show lookupAssoc (mergeLegacyAux (insertAssoc pm (natStr idx) p) (idx + 1) rest)
        (natStr (idx + (i' + 1))) = some (rest.get ⟨i', hi'⟩)
      have harg : idx + (i' + 1) = (idx + 1) + i' := by omega
      rw [harg]
      exact ih _ (idx + 1) i' hi'

/-- C9: before generation, every entry of the legacy list-style prompt field at
position i is inserted into the prompt keyframe map under the string key
str(i), overwriting any keyframe already configured at that key, so a legacy
prompt list of length n populates keyframes 0 through n-1; keys that are not
str(i) for any i below n are untouched. -/
theorem legacy_prompt_merge_spec (prompts : List String) (pm : List (String × String)) :
    (∀ i (hi : i < prompts.length),
      lookupAssoc (mergeLegacyPrompts prompts pm) (natStr i) = some (prompts.get ⟨i, hi⟩)) ∧
    (∀ k, (∀ j, j < prompts.length → k ≠ natStr j) →
      lookupAssoc (mergeLegacyPrompts prompts pm) k = lookupAssoc pm k) := by
  constructor
  · intro i hi
    have := mergeLegacyAux_lookup prompts pm 0 i hi
    rw [Nat.zero_add] at this
    exact this
  · intro k hk
    apply mergeLegacyAux_other_key
    intro j hj
    have := hk j hj
    simpa using this

/-- Witness for `legacy_prompt_merge_spec`: a two-entry legacy prompt list
overwrites the configured keyframe "0" and populates "1", while the unrelated
keyframe "5" is preserved. -/
theorem legacy_prompt_merge_spec_witness :
    lookupAssoc (mergeLegacyPrompts ["cat", "dog"] [("0", "old"), ("5", "keep")])
      (natStr 0) = some "cat" ∧
    lookupAssoc (mergeLegacyPrompts ["cat", "dog"] [("0", "old"), ("5", "keep")])
      (natStr 1) = some "dog" ∧
    lookupAssoc (mergeLegacyPrompts ["cat", "dog"] [("0", "old"), ("5", "keep")])
      "5" = some "keep" := by
  refine ⟨?_, ?_, ?_⟩
  · exact (legacy_prompt_merge_spec ["cat", "dog"] [("0", "old"), ("5", "keep")]).1 0
      (by norm_num)
  · exact (legacy_prompt_merge_spec ["cat", "dog"] [("0", "old"), ("5", "keep")]).1 1
      (by norm_num)
  · have h5 : ∀ j, j < (["cat", "dog"] : List String).length → "5" ≠ natStr j := by decide
    have := (legacy_prompt_merge_spec ["cat", "dog"] [("0", "old"), ("5", "keep")]).2 "5" h5
    rw [this]
    rfl


theorem promptEntry_some (head tail : String) (len : Int) (kv : String × String) (j : Int)
    (hp : parsePyInt kv.1 = some j) (hj : j < len) :
    promptEntry head tail len kv = some (j, decorate head tail kv.2) := by
  unfold promptEntry
  simp only [hp]
  rw [if_pos hj]

theorem promptEntry_inv (head tail : String) (len : Int) (kv : String × String)
    (q : Int × String) (h : promptEntry head tail len kv = some q) :
    parsePyInt kv.1 = some q.1 ∧ q.1 < len ∧ q.2 = decorate head tail kv.2 := by
  unfold promptEntry at h
  cases hp : parsePyInt kv.1 with
  | none =>
    simp only [hp] at h
    exact absurd h (by simp)
  | some j =>
    simp only [hp] at h
    split at h
    · rename_i hj
      cases h
      refine ⟨?_, hj, rfl⟩
      rfl
    · simp at h

theorem promptMapEntries_keys_lt (pm : List (String × String)) (head tail : String)
    (len : Int) (q : Int × String) (hq : q ∈ promptMapEntries pm head tail len) :
    q.1 < len := by
  unfold promptMapEntries at hq
  rcases List.mem_filterMap.mp hq with ⟨kv, _, hkv⟩
  exact (promptEntry_inv head tail len kv q hkv).2.1

theorem promptMapEntries_filter_nomatch (head tail : String) (len : Int) (i : Int) :
    ∀ (l : List (String × String)), (∀ kv ∈ l, parsePyInt kv.1 ≠ some i) →
      (promptMapEntries l head tail len).filter (fun q => decide (q.1 = i)) = [] := by
  intro l
  induction l with
  | nil =>
    intro _
    rfl
  | cons e rest ih =>
    intro hl
    have hrest := ih (fun kv hkv => hl kv (List.mem_cons_of_mem _ hkv))
    have he := hl e (List.mem_cons_self _ _)
    unfold promptMapEntries
    cases hE : promptEntry head tail len e with
    | none =>
      rw [List.filterMap_cons_none hE]
      exact hrest
    | some q =>
      have hq := promptEntry_inv head tail len e q hE
      have hqi : q.1 ≠ i := fun hqi => he (hqi ▸ hq.1)
      rw [List.filterMap_cons_some hE]
      simp only [List.filter_cons]
      rw [if_neg (by simp [hqi])]
      exact hrest

theorem promptMapEntries_filter_single (head tail : String) (len : Int) (k v : String)
    (i : Int) (hparse : parsePyInt k = some i) (hlen : i < len) :
    ∀ (l : List (String × String)), (l.map Prod.fst).Nodup → (k, v) ∈ l →
      (∀ kv ∈ l, parsePyInt kv.1 = some i → kv.1 = k) →
      (promptMapEntries l head tail len).filter (fun q => decide (q.1 = i)) =
        [(i, decorate head tail v)] := by
  intro l
  induction l with
  | nil =>
    intro _ hm _
    cases hm
  | cons e rest ih =>
    intro hnd hm huniq
    rw [List.map_cons] at hnd
    have h1 := List.nodup_cons.mp hnd
    by_cases hek : e.1 = k
    · have hev : e = (k, v) := by
        rcases List.mem_cons.mp hm with h | h
        · exact h.symm
        · exfalso
          apply h1.1
          rw [hek]
          exact List.mem_map_of_mem Prod.fst h
      subst hev
      unfold promptMapEntries
      have hE : promptEntry head tail len (k, v) = some (i, decorate head tail v) :=
        promptEntry_some head tail len (k, v) i hparse hlen
      rw [List.filterMap_cons_some hE]
      simp only [List.filter_cons]
      rw [if_pos (by simp)]
      have hrest0 : ∀ kv ∈ rest, parsePyInt kv.1 ≠ some i := by
        intro kv hkv hp2
        have hkvk := huniq kv (List.mem_cons_of_mem _ hkv) hp2
        apply h1.1
        have hmm : kv.1 ∈ rest.map Prod.fst := List.mem_map_of_mem Prod.fst hkv
        rw [hkvk] at hmm
        exact hmm
      have hr := promptMapEntries_filter_nomatch head tail len i rest hrest0
      unfold promptMapEntries at hr
      rw [hr]
    · have hmr : (k, v) ∈ rest := by
        rcases List.mem_cons.mp hm with h | h
        · exact absurd (congrArg Prod.fst h.symm) hek
        · exact h
      have hei : parsePyInt e.1 ≠ some i :=
        fun hp2 => hek (huniq e (List.mem_cons_self _ _) hp2)
      unfold promptMapEntries
      cases hE : promptEntry head tail len e with
      | none =>
        rw [List.filterMap_cons_none hE]
        exact ih h1.2 hmr (fun kv hkv => huniq kv (List.mem_cons_of_mem _ hkv))
      | some q =>
        have hq := promptEntry_inv head tail len e q hE
        have hqi : q.1 ≠ i := fun hqi => hei (hqi ▸ hq.1)
        rw [List.filterMap_cons_some hE]
        simp only [List.filter_cons]
        rw [if_neg (by simp [hqi])]
        exact ih h1.2 hmr (fun kv hkv => huniq kv (List.mem_cons_of_mem _ hkv))

/-- C5: for every keyframe of the prompt map (unique by frame index, as a
Python dict keyed by distinct strings, at most one of which parses to any
given index) whose parsed index is below the duration, the effective prompt
handed to the generation loop is the keyframe text with the configured head
prompt prepended and the configured tail prompt appended (comma-separated),
uniformly for every keyframe; when the head or tail prompt is the empty
string (Python-falsy, i.e. unset), the keyframe text is passed through
without that decoration. -/
theorem prompt_decoration_spec (pm : List (String × String)) (head tail : String)
    (len : Int) (k v : String) (i : Int)
    (hnodup : (pm.map Prod.fst).Nodup) (hmem : (k, v) ∈ pm)
    (hparse : parsePyInt k = some i) (hlen : i < len)
    (huniq : ∀ kv ∈ pm, parsePyInt kv.1 = some i → kv.1 = k) :
    lookupAssoc (buildPromptMap pm head tail len) i = some (decorate head tail v) ∧
    (head = "" → tail = "" → decorate head tail v = v) ∧
    (head ≠ "" → tail ≠ "" →
      decorate head tail v = head ++ "," ++ v ++ "," ++ tail) := by
  refine ⟨?_, ?_, ?_⟩
  · unfold buildPromptMap
    rw [lookupAssoc_buildAssocLast]
    rw [promptMapEntries_filter_single head tail len k v i hparse hlen pm hnodup hmem huniq]
    rfl
  · intro h1 h2
    simp [decorate, h1, h2]
  · intro h1 h2
    simp [decorate, h1, h2, String.append_assoc]

/-- Witness for `prompt_decoration_spec`: keyframe "0" with text "cat", head
prompt "mast" and tail prompt "hq" resolves to "mast,cat,hq" at frame 0. -/
theorem prompt_decoration_spec_witness :
    lookupAssoc (buildPromptMap [("0", "cat")] "mast" "hq" 16) 0 =
      some "mast,cat,hq" := by
  have h := (prompt_decoration_spec [("0", "cat")] "mast" "hq" 16 "0" "cat" 0
    (by decide) (by decide) (by decide) (by decide) (by decide)).1
  rw [h]
  rfl

/-- C6 (amended): every frame index appearing as a key of the prompt map
passed to the inference routine is strictly below the duration — keyframes at
or beyond the duration are filtered out — but the filter imposes no lower
bound, so a configured negative keyframe index passes through. -/
theorem prompt_keys_below_duration (pm : List (String × String)) (head tail : String)
    (len : Int) (p : Int × String) (hp : p ∈ buildPromptMap pm head tail len) :
    p.1 < len := by
  have hk := keys_buildAssocLast (promptMapEntries pm head tail len) p hp
  rcases List.mem_map.mp hk with ⟨q, hq, hq1⟩
  have hlt := promptMapEntries_keys_lt pm head tail len q hq
  rw [hq1] at hlt
  exact hlt

/-- Witness for `prompt_keys_below_duration`: keyframe "3" with duration 16
reaches the built map and its index is below 16. -/
theorem prompt_keys_below_duration_witness :
    ((3 : Int), "x") ∈ buildPromptMap [("3", "x")] "" "" 16 ∧
      (((3 : Int), "x") : Int × String).1 < 16 :=
  ⟨by decide,
   prompt_keys_below_duration [("3", "x")] "" "" 16 ((3 : Int), "x") (by decide)⟩

/-- C6 counterexample: a keyframe configured at the string key "-1" parses to
the negative frame index -1, passes the `int(k) < length` filter, and reaches
the prompt map handed to the inference routine, so the key set is not
contained in [0, duration). -/
theorem prompt_key_negative_cex :
    ((-1 : Int), "x") ∈ buildPromptMap [("-1", "x")] "" "" 16 ∧ ¬ (0 ≤ (-1 : Int)) :=
  ⟨by decide, by decide⟩

theorem matchLora_some_eq (cs n w rest : List Char)
    (h : matchLora cs = some (n, w, rest)) :
    cs = loraTagOpen ++ (n ++ ':' :: (w ++ '>' :: rest)) := by
  unfold matchLora at h
  split at h
  · exact absurd h (by simp)
  · rename_i hpre
    split at h
    · exact absurd h (by simp)
    · rename_i hne
      split at h
      · rename_i rest3 heq3
        split at h
        · exact absurd h (by simp)
        · rename_i hwne
          split at h
          · rename_i rest5 heq5
            cases h
            have hpre2 : cs.take 6 = loraTagOpen := not_not.mp hpre
            have hdrop : cs.drop 6 =
                (cs.drop 6).takeWhile (fun c => c != ':') ++ (':' :: rest3) := by
              rw [← heq3]
              exact (List.takeWhile_append_dropWhile _ _).symm
            have hrest3 : rest3 = rest3.takeWhile isWeightChar ++ ('>' :: rest) := by
              rw [← heq5]
              exact (List.takeWhile_append_dropWhile _ _).symm
            calc cs = cs.take 6 ++ cs.drop 6 := (List.take_append_drop 6 cs).symm
              _ = loraTagOpen ++ cs.drop 6 := by rw [hpre2]
              _ = loraTagOpen ++ ((cs.drop 6).takeWhile (fun c => c != ':') ++
                    (':' :: rest3)) :=
                  congrArg (fun t => loraTagOpen ++ t) hdrop
              _ = loraTagOpen ++ ((cs.drop 6).takeWhile (fun c => c != ':') ++
                    (':' :: (rest3.takeWhile isWeightChar ++ ('>' :: rest)))) :=
                  congrArg (fun t => loraTagOpen ++
                    ((cs.drop 6).takeWhile (fun c => c != ':') ++ (':' :: t))) hrest3
          · exact absurd h (by simp)
      · exact absurd h (by simp)

theorem matchLora_parts (cs n w rest : List Char) (h : matchLora cs = some (n, w, rest)) :
    rest.length + n.length + w.length + 8 = cs.length ∧
      (loraTagOpen ++ n ++ [':'] ++ w ++ ['>']) ++ rest = cs := by
  have hcs := matchLora_some_eq cs n w rest h
  constructor
  · rw [hcs]
    simp only [loraTagOpen, List.length_append, List.length_cons, List.length_nil]
    omega
  · rw [hcs]
    simp [loraTagOpen, List.append_assoc]

theorem matchLora_rest_sublist (cs n w rest : List Char)
    (h : matchLora cs = some (n, w, rest)) : rest.Sublist cs := by
  have h2 := (matchLora_parts cs n w rest h).2
  have h3 : rest.Sublist ((loraTagOpen ++ n ++ [':'] ++ w ++ ['>']) ++ rest) :=
    List.sublist_append_right _ _
  rw [h2] at h3
  exact h3

theorem loraStripF_sublist : ∀ (fuel : Nat) (cs : List Char), cs.length ≤ fuel →
    (loraStripF fuel cs).Sublist cs := by
  intro fuel
  induction fuel with
  | zero =>
    intro cs h
    have hnil : cs = [] := List.length_eq_zero.mp (Nat.le_zero.mp h)
    subst hnil
    simp [loraStripF]
  | succ f ih =>
    intro cs h
    cases cs with
    | nil => simp [loraStripF]
    | cons c cs' =>
      cases hm : matchLora (c :: cs') with
      | some t =>
        obtain ⟨n, w, rest⟩ := t
        have hlen := (matchLora_parts _ _ _ _ hm).1
        have hstep : loraStripF (f + 1) (c :: cs') = loraStripF f rest := by
          simp only [loraStripF, hm]
        rw [hstep]
        have hr : rest.length ≤ f := by
          simp only [List.length_cons] at h hlen
          omega
        exact (ih rest hr).trans (matchLora_rest_sublist _ _ _ _ hm)
      | none =>
        have hstep : loraStripF (f + 1) (c :: cs') = c :: loraStripF f cs' := by
          simp only [loraStripF, hm]
        rw [hstep]
        have hr : cs'.length ≤ f := by
          simp only [List.length_cons] at h
          omega
        exact (ih cs' hr).cons₂ c

theorem loraScan_length_account : ∀ (fuel : Nat) (cs : List Char), cs.length ≤ fuel →
    (loraStripF fuel cs).length +
      ((loraTagsF fuel cs).map (fun nw => nw.1.length + nw.2.length + 8)).sum =
      cs.length := by
  intro fuel
  induction fuel with
  | zero =>
    intro cs h
    have hnil : cs = [] := List.length_eq_zero.mp (Nat.le_zero.mp h)
    subst hnil
    rfl
  | succ f ih =>
    intro cs h
    cases cs with
    | nil => rfl
    | cons c cs' =>
      cases hm : matchLora (c :: cs') with
      | some t =>
        obtain ⟨n, w, rest⟩ := t
        have hlen := (matchLora_parts _ _ _ _ hm).1
        have hstep1 : loraStripF (f + 1) (c :: cs') = loraStripF f rest := by
          simp only [loraStripF, hm]
        have hstep2 : loraTagsF (f + 1) (c :: cs') = (n, w) :: loraTagsF f rest := by
          simp only [loraTagsF, hm]
        rw [hstep1, hstep2]
        have hr : rest.length ≤ f := by
          simp only [List.length_cons] at h hlen
          omega
        have hacc := ih rest hr
        simp only [List.map_cons, List.sum_cons]
        rw [← hlen]
        omega
      | none =>
        have hstep1 : loraStripF (f + 1) (c :: cs') = c :: loraStripF f cs' := by
          simp only [loraStripF, hm]
        have hstep2 : loraTagsF (f + 1) (c :: cs') = loraTagsF f cs' := by
          simp only [loraTagsF, hm]
        rw [hstep1, hstep2]
        have hr : cs'.length ≤ f := by
          simp only [List.length_cons] at h
          omega
        have hacc := ih cs' hr
        simp only [List.length_cons]
        omega

/-- C8 (amended): LoRA parsing removes from each prompt exactly the
`<lora:name:weight>` tags found in one left-to-right non-overlapping scan —
the stripped text is a subsequence of the original whose length accounts
precisely for the removed matches — and maps each parsed name to its weight
with the last occurrence of a duplicated name winning; because the removal is
single-pass, text adjoining a removed tag may itself form a tag that survives
in the output. -/
theorem lora_parsing_spec (p : String) (tags : List (String × String)) (k : String) :
    (loraStrip p).data.Sublist p.data ∧
    (loraStrip p).length +
      ((loraFindAll p).map (fun nw => nw.1.length + nw.2.length + 8)).sum = p.length ∧
    lookupAssoc (buildAssocLast tags) k =
      ((tags.filter (fun nw => decide (nw.1 = k))).getLast?).map Prod.snd := by
  refine ⟨?_, ?_, lookupAssoc_buildAssocLast tags k⟩
  · exact loraStripF_sublist p.data.length p.data (Nat.le_refl _)
  · show (loraStripF p.data.length p.data).length +
      (((loraTagsF p.data.length p.data).map
          (fun nw => ((⟨nw.1⟩ : String), (⟨nw.2⟩ : String)))).map
        (fun nw => nw.1.length + nw.2.length + 8)).sum = p.data.length
    rw [List.map_map]
    have hcomp : ((fun nw : String × String => nw.1.length + nw.2.length + 8) ∘
        (fun nw : List Char × List Char => ((⟨nw.1⟩ : String), (⟨nw.2⟩ : String)))) =
        (fun nw : List Char × List Char => nw.1.length + nw.2.length + 8) := rfl
    rw [hcomp]
    exact loraScan_length_account p.data.length p.data (Nat.le_refl _)

/-- C8 counterexample: stripping the prompt `<lora:x:<lora:a:1.0>1.0>` removes
only the inner tag found by the single scan; the remaining text is
`<lora:x:1.0>`, which itself contains a well-formed lora tag, so tag-free
output is not guaranteed. -/
theorem lora_strip_residual_tag_cex :
    loraStrip "<lora:x:<lora:a:1.0>1.0>" = "<lora:x:1.0>" ∧
    hasLoraTag (loraStrip "<lora:x:<lora:a:1.0>1.0>").data = true ∧
    loraFindAll "<lora:x:<lora:a:1.0>1.0>" = [("a", "1.0")] := by
  refine ⟨?_, ?_, ?_⟩ <;> decide

theorem getD_mem_or_default {α : Type} : ∀ (l : List α) (i : Nat) (d : α),
    l.getD i d ∈ l ∨ l.getD i d = d := by
  intro l
  induction l with
  | nil =>
    intro i d
    right
    cases i <;> rfl
  | cons x xs ih =>
    intro i d
    cases i with
    | zero =>
      left
      simp
    | succ i' =>
      rw [List.getD_cons_succ]
      rcases ih i' d with h | h
      · exact Or.inl (List.mem_cons_of_mem _ h)
      · exact Or.inr h

theorem fixSeeds_length (rng : Nat → Nat) : ∀ (S : List Int) (c : Nat),
    (fixSeeds rng c S).1.length = S.length := by
  intro S
  induction S with
  | nil =>
    intro c
    rfl
  | cons s rest ih =>
    intro c
    by_cases hs : s = -1
    · simp only [fixSeeds, if_pos hs, List.length_cons, ih]
    · simp only [fixSeeds, if_neg hs, List.length_cons, ih]

theorem fixSeeds_no_sentinel (rng : Nat → Nat) : ∀ (S : List Int) (c : Nat),
    (-1 : Int) ∉ (fixSeeds rng c S).1 := by
  intro S
  induction S with
  | nil =>
    intro c
    simp [fixSeeds]
  | cons s rest ih =>
    intro c
    by_cases hs : s = -1
    · simp only [fixSeeds, if_pos hs]
      intro hmem
      rcases List.mem_cons.mp hmem with h | h
      · omega
      · exact ih (c + 1) h
    · simp only [fixSeeds, if_neg hs]
      intro hmem
      rcases List.mem_cons.mp hmem with h | h
      · exact hs h.symm
      · exact ih c h

theorem fixSeeds_getD (rng : Nat → Nat) : ∀ (S : List Int) (c : Nat) (i : Nat),
    i < S.length →
    (S.getD i 0 = -1 → 0 ≤ (fixSeeds rng c S).1.getD i 0) ∧
    (S.getD i 0 ≠ -1 → (fixSeeds rng c S).1.getD i 0 = S.getD i 0) := by
  intro S
  induction S with
  | nil =>
    intro c i hi
    simp at hi
  | cons s rest ih =>
    intro c i hi
    by_cases hs : s = -1
    · simp only [fixSeeds, if_pos hs]
      cases i with
      | zero =>
        constructor
        · intro _
          simp only [List.getD_cons_zero]
          omega
        · intro hne
          rw [List.getD_cons_zero] at hne
          exact absurd hs hne
      | succ i' =>
        simp only [List.getD_cons_succ]
        exact ih (c + 1) i' (by simp at hi; omega)
    · simp only [fixSeeds, if_neg hs]
      cases i with
      | zero =>
        constructor
        · intro h0
          rw [List.getD_cons_zero] at h0
          exact absurd h0 hs
        · intro _
          rw [List.getD_cons_zero, List.getD_cons_zero]
      | succ i' =>
        simp only [List.getD_cons_succ]
        exact ih c i' (by simp at hi; omega)

theorem fixSeeds_id (rng : Nat → Nat) : ∀ (S : List Int) (c : Nat), (-1 : Int) ∉ S →
    fixSeeds rng c S = (S, c) := by
  intro S
  induction S with
  | nil =>
    intro c _
    rfl
  | cons s rest ih =>
    intro c hns
    have hs : s ≠ -1 := fun h => hns (by rw [List.mem_cons]; exact Or.inl h.symm)
    have hrest : (-1 : Int) ∉ rest := fun h => hns (List.mem_cons_of_mem _ h)
    simp only [fixSeeds, if_neg hs, ih c hrest]

theorem loopSeed_no_sentinel (rng : Nat → Nat) (seeds : List Int) (c g : Nat)
    (hs : (-1 : Int) ∉ seeds) :
    loopSeed rng seeds c g = seeds.getD (g % seeds.length) 0 ∧
    loopSeedCounter rng seeds c g = c := by
  have hne : seeds.getD (g % seeds.length) 0 ≠ -1 := by
    rcases getD_mem_or_default seeds (g % seeds.length) 0 with h | h
    · intro he
      rw [he] at h
      exact hs h
    · rw [h]
      omega
  constructor
  · unfold loopSeed
    rw [if_neg hne]
  · unfold loopSeedCounter
    rw [if_neg hne]

theorem genLoop_empty_pm (rng : Nat → Nat) (seeds : List Int) (nprompts : List String)
    (pm : List (String × String)) (head tail : String) (length : Int)
    (hpm : pm.isEmpty = true) :
    ∀ (repeats c g : Nat),
      genLoop rng seeds nprompts pm head tail length repeats c g = [] := by
  intro repeats
  induction repeats with
  | zero =>
    intro c g
    rfl
  | succ r ih =>
    intro c g
    rw [show genLoop rng seeds nprompts pm head tail length (r + 1) c g =
        genLoop rng seeds nprompts pm head tail length r c g from by
      simp [genLoop, hpm]]
    exact ih c g

theorem genLoop_logged (rng : Nat → Nat) (seeds : List Int) (nprompts : List String)
    (pm : List (String × String)) (head tail : String) (length : Int) :
    ∀ (repeats c g : Nat) (inv : Invocation),
      inv ∈ genLoop rng seeds nprompts pm head tail length repeats c g →
      inv.logged_seed = inv.seed := by
  intro repeats
  induction repeats with
  | zero =>
    intro c g inv hinv
    simp [genLoop] at hinv
  | succ r ih =>
    intro c g inv hinv
    by_cases hpm : pm.isEmpty
    · rw [show genLoop rng seeds nprompts pm head tail length (r + 1) c g =
          genLoop rng seeds nprompts pm head tail length r c g from by
        simp [genLoop, hpm]] at hinv
      exact ih c g inv hinv
    · rw [show genLoop rng seeds nprompts pm head tail length (r + 1) c g =
          { n_prompt := nprompts.getD (g % nprompts.length) "",
            seed := loopSeed rng seeds c g,
            logged_seed := loopSeed rng seeds c g,
            idx := g,
            prompt_map := buildPromptMap pm head tail length } ::
          genLoop rng seeds nprompts pm head tail length r
            (loopSeedCounter rng seeds c g) (g + 1) from by
        simp [genLoop, hpm]] at hinv
      rcases List.mem_cons.mp hinv with h | h
      · rw [h]
      · exact ih _ _ inv h

theorem genLoop_length (rng : Nat → Nat) (seeds : List Int) (nprompts : List String)
    (pm : List (String × String)) (head tail : String) (length : Int)
    (hpm : pm.isEmpty = false) :
    ∀ (repeats c g : Nat),
      (genLoop rng seeds nprompts pm head tail length repeats c g).length = repeats := by
  intro repeats
  induction repeats with
  | zero =>
    intro c g
    rfl
  | succ r ih =>
    intro c g
    rw [show genLoop rng seeds nprompts pm head tail length (r + 1) c g =
        { n_prompt := nprompts.getD (g % nprompts.length) "",
          seed := loopSeed rng seeds c g,
          logged_seed := loopSeed rng seeds c g,
          idx := g,
          prompt_map := buildPromptMap pm head tail length } ::
        genLoop rng seeds nprompts pm head tail length r
          (loopSeedCounter rng seeds c g) (g + 1) from by
      simp [genLoop, hpm]]
    simp only [List.length_cons, ih]

theorem genLoop_getD (rng : Nat → Nat) (seeds : List Int) (nprompts : List String)
    (pm : List (String × String)) (head tail : String) (length : Int)
    (hpm : pm.isEmpty = false) (hs : (-1 : Int) ∉ seeds) :
    ∀ (repeats c g k : Nat), k < repeats →
      (genLoop rng seeds nprompts pm head tail length repeats c g).getD k invDefault =
        { n_prompt := nprompts.getD ((g + k) % nprompts.length) "",
          seed := seeds.getD ((g + k) % seeds.length) 0,
          logged_seed := seeds.getD ((g + k) % seeds.length) 0,
          idx := g + k,
          prompt_map := buildPromptMap pm head tail length } := by
  intro repeats
  induction repeats with
  | zero =>
    intro c g k hk
    omega
  | succ r ih =>
    intro c g k hk
    have hls := loopSeed_no_sentinel rng seeds c g hs
    rw [show genLoop rng seeds nprompts pm head tail length (r + 1) c g =
        { n_prompt := nprompts.getD (g % nprompts.length) "",
          seed := loopSeed rng seeds c g,
          logged_seed := loopSeed rng seeds c g,
          idx := g,
          prompt_map := buildPromptMap pm head tail length } ::
        genLoop rng seeds nprompts pm head tail length r
          (loopSeedCounter rng seeds c g) (g + 1) from by
      simp [genLoop, hpm]]
    cases k with
    | zero =>
      rw [List.getD_cons_zero, hls.1]
      simp only [Nat.add_zero]
    | succ k' =>
      rw [List.getD_cons_succ]
      have harg : g + (k' + 1) = (g + 1) + k' := by omega
      rw [harg]
      exact ih (loopSeedCounter rng seeds c g) (g + 1) k' (by omega)

/-- C2 (amended): a configuration whose prompt keyframe map (after the legacy
prompt-list merge) is empty is not rejected: the generate command completes
normally, every repeat skips the loop body under the
`if model_config.prompt_map:` guard, inference is never invoked, and prompt
resolution over an empty keyframe set is never reached at query time. -/
theorem empty_prompt_map_skips_generation (rng : Nat → Nat) (cfg : RawConfig)
    (length : Int) (repeats : Nat)
    (hempty : mergeLegacyPrompts cfg.prompt cfg.prompt_map = []) :
    (generateCommand rng cfg length repeats).invocations = [] := by
  show genLoop rng (fixSeeds rng 0 cfg.seed).1 cfg.n_prompt
      ((mergeLegacyPrompts cfg.prompt cfg.prompt_map).map
        (fun kv => (kv.1, loraStrip kv.2)))
      cfg.head_prompt cfg.tail_prompt length repeats (fixSeeds rng 0 cfg.seed).2 0 = []
  rw [hempty]
  exact genLoop_empty_pm rng (fixSeeds rng 0 cfg.seed).1 cfg.n_prompt []
    cfg.head_prompt cfg.tail_prompt length rfl repeats (fixSeeds rng 0 cfg.seed).2 0

/-- Witness for `empty_prompt_map_skips_generation`: an empty prompt map with
three repeats performs no inference invocation. -/
theorem empty_prompt_map_skips_generation_witness :
    (generateCommand rngZero emptyPromptConfig 16 3).invocations = [] :=
  empty_prompt_map_skips_generation rngZero emptyPromptConfig 16 3 rfl

/-- C2 counterexample: a generate run over a configuration with an empty
prompt keyframe map is not rejected as a configuration error at construction
time or anywhere else — the command runs to normal completion, persisting the
fixed seed list and performing zero inference invocations; no error path
exists for this input. -/
theorem empty_prompt_map_not_rejected_cex :
    generateCommand rngZero emptyPromptConfig 16 1 =
      { persisted_seed := [5], lora_map := [], invocations := [] } := rfl

/-- C3: for every seed list containing the sentinel -1, the generate command
replaces each -1 entry with a freshly drawn non-negative seed before the
final run configuration (prompt.json) is persisted — the persisted seed list
is the fixed list, of the same length, with non-sentinel entries unchanged —
so the sentinel -1 never appears in the persisted seed list, and the seed
logged for each generation is exactly the seed handed to the inference
routine. -/
theorem seed_sentinel_fixed_spec (rng : Nat → Nat) (cfg : RawConfig) (length : Int)
    (repeats : Nat) (hsent : (-1 : Int) ∈ cfg.seed) :
    (-1 : Int) ∉ (generateCommand rng cfg length repeats).persisted_seed ∧
    (generateCommand rng cfg length repeats).persisted_seed.length = cfg.seed.length ∧
    (∀ i, i < cfg.seed.length →
      (cfg.seed.getD i 0 = -1 →
        0 ≤ (generateCommand rng cfg length repeats).persisted_seed.getD i 0) ∧
      (cfg.seed.getD i 0 ≠ -1 →
        (generateCommand rng cfg length repeats).persisted_seed.getD i 0 =
          cfg.seed.getD i 0)) ∧
    (∀ inv ∈ (generateCommand rng cfg length repeats).invocations,
      inv.logged_seed = inv.seed) := by
  refine ⟨?_, ?_, ?_, ?_⟩
  · exact fixSeeds_no_sentinel rng cfg.seed 0
  · exact fixSeeds_length rng cfg.seed 0
  · intro i hi
    exact fixSeeds_getD rng cfg.seed 0 i hi
  · intro inv hinv
    have hinv2 : inv ∈ genLoop rng (fixSeeds rng 0 cfg.seed).1 cfg.n_prompt
        ((mergeLegacyPrompts cfg.prompt cfg.prompt_map).map
          (fun kv => (kv.1, loraStrip kv.2)))
        cfg.head_prompt cfg.tail_prompt length repeats (fixSeeds rng 0 cfg.seed).2 0 := hinv
    exact genLoop_logged rng _ _ _ _ _ _ repeats _ 0 inv hinv2

/-- Witness for `seed_sentinel_fixed_spec`: seed list [-1] with one repeat
persists a seed list of length one that contains no -1. -/
theorem seed_sentinel_fixed_spec_witness :
    (-1 : Int) ∉ (generateCommand rngZero sentinelSeedConfig 16 1).persisted_seed ∧
    (generateCommand rngZero sentinelSeedConfig 16 1).persisted_seed.length = 1 :=
  ⟨(seed_sentinel_fixed_spec rngZero sentinelSeedConfig 16 1 (by decide)).1,
   (seed_sentinel_fixed_spec rngZero sentinelSeedConfig 16 1 (by decide)).2.1⟩

/-- C4 (amended): provided the prompt keyframe map (after the legacy merge) is
non-empty, the generate command invokes the inference routine exactly r
times, and the k-th generation (k = 0..r-1) carries generation index k, uses
negative prompt N[k mod |N|], and uses the k-th cyclic entry of the persisted
(sentinel-fixed) seed list — which equals the configured seed list S whenever
S contains no -1 — cycling through the lists when they are shorter than the
number of repeats; with an empty prompt keyframe map every repeat is skipped
and no inference occurs. -/
theorem repeat_cycling_spec (rng : Nat → Nat) (cfg : RawConfig) (length : Int)
    (repeats : Nat)
    (hpm : mergeLegacyPrompts cfg.prompt cfg.prompt_map ≠ [])
    (hN : cfg.n_prompt ≠ []) (hS : cfg.seed ≠ []) :
    (generateCommand rng cfg length repeats).invocations.length = repeats ∧
    ((-1 : Int) ∉ cfg.seed →
      (generateCommand rng cfg length repeats).persisted_seed = cfg.seed) ∧
    (∀ k, k < repeats →
      ((generateCommand rng cfg length repeats).invocations.getD k invDefault).idx = k ∧
      ((generateCommand rng cfg length repeats).invocations.getD k invDefault).n_prompt =
        cfg.n_prompt.getD (k % cfg.n_prompt.length) "" ∧
      ((generateCommand rng cfg length repeats).invocations.getD k invDefault).seed =
        (generateCommand rng cfg length repeats).persisted_seed.getD
          (k % cfg.seed.length) 0) := by
  have hpm2 : ((mergeLegacyPrompts cfg.prompt cfg.prompt_map).map
      (fun kv => (kv.1, loraStrip kv.2))).isEmpty = false := by
    cases hm : mergeLegacyPrompts cfg.prompt cfg.prompt_map with
    | nil => exact absurd hm hpm
    | cons a l => simp
  have hnos : (-1 : Int) ∉ (fixSeeds rng 0 cfg.seed).1 := fixSeeds_no_sentinel rng cfg.seed 0
  have hinvs : (generateCommand rng cfg length repeats).invocations =
      genLoop rng (fixSeeds rng 0 cfg.seed).1 cfg.n_prompt
        ((mergeLegacyPrompts cfg.prompt cfg.prompt_map).map
          (fun kv => (kv.1, loraStrip kv.2)))
        cfg.head_prompt cfg.tail_prompt length repeats (fixSeeds rng 0 cfg.seed).2 0 := rfl
  refine ⟨?_, ?_, ?_⟩
  · rw [hinvs]
    exact genLoop_length rng _ _ _ _ _ _ hpm2 repeats _ 0
  · intro hns
    show (fixSeeds rng 0 cfg.seed).1 = cfg.seed
    rw [fixSeeds_id rng cfg.seed 0 hns]
  · intro k hk
    have hgd := genLoop_getD rng (fixSeeds rng 0 cfg.seed).1 cfg.n_prompt
      ((mergeLegacyPrompts cfg.prompt cfg.prompt_map).map
        (fun kv => (kv.1, loraStrip kv.2)))
      cfg.head_prompt cfg.tail_prompt length hpm2 hnos repeats
      (fixSeeds rng 0 cfg.seed).2 0 k hk
    rw [Nat.zero_add] at hgd
    rw [hinvs, hgd]
    have hlen : (fixSeeds rng 0 cfg.seed).1.length = cfg.seed.length :=
      fixSeeds_length rng cfg.seed 0
    refine ⟨rfl, rfl, ?_⟩
    show (fixSeeds rng 0 cfg.seed).1.getD (k % (fixSeeds rng 0 cfg.seed).1.length) 0 =
      (generateCommand rng cfg length repeats).persisted_seed.getD (k % cfg.seed.length) 0
    rw [hlen]
    rfl

/-- Witness for `repeat_cycling_spec`: three repeats over a one-keyframe
prompt map with two negative prompts and one seed produce three invocations;
the third cycles back to the first negative prompt and reuses the single
seed. -/
theorem repeat_cycling_spec_witness :
    (generateCommand rngZero cyclingConfig 16 3).invocations.length = 3 ∧
    ((generateCommand rngZero cyclingConfig 16 3).invocations.getD 2 invDefault).n_prompt =
      "negA" ∧
    ((generateCommand rngZero cyclingConfig 16 3).invocations.getD 2 invDefault).seed =
      3 := by
  have h := repeat_cycling_spec rngZero cyclingConfig 16 3 (by decide) (by decide) (by decide)
  refine ⟨h.1, ?_, ?_⟩
  · have h2 := (h.2.2 2 (by norm_num)).2.1
    rw [h2]
    rfl
  · have h3 := (h.2.2 2 (by norm_num)).2.2
    rw [h3]
    rfl

/-- C4 counterexample: with two repeats, the non-empty seed list [7] and the
non-empty negative-prompt list ["x"], but an empty prompt keyframe map, the
generate command performs zero inference invocations instead of the claimed
two: the per-repeat guard on the prompt map silently skips every repeat. -/
theorem repeat_count_empty_map_cex :
    (generateCommand rngZero emptyMapRepeatConfig 16 2).invocations.length = 0 ∧
    emptyMapRepeatConfig.seed ≠ [] ∧ emptyMapRepeatConfig.n_prompt ≠ [] ∧
    (0 : Nat) ≠ 2 :=
  ⟨rfl, by decide, by decide, by decide⟩
